import Mathlib

/-! # drone-gitea-release: release reconciliation and asset synchronisation

A shallow embedding of `release.go` and `plugin.go`.

* Go `error` values are their message (`String`); a Go `(value, error)` result
  is an `Except String value`.
* The Gitea SDK client is a record of response functions.  Every response may
  depend on the remote calls issued so far, so a server whose answers change as
  the run mutates it is covered.
* Stateful code is explicit state passing over `St`: the ordered remote calls
  issued so far and the lines written to standard output.
-/

namespace GiteaRelease

/-! ## Data model (`code.gitea.io/sdk/gitea`) -/

/-- The fields of `gitea.Release` the program reads or compares. -/
structure Release where
  ID : Int
  TagName : String
  Title : String
  Note : String
  IsDraft : Bool
  IsPrerelease : Bool
deriving DecidableEq, Repr

/-- The fields of `gitea.Attachment` the program reads. -/
structure Attachment where
  ID : Int
  Name : String
deriving DecidableEq, Repr

/-- The fields of `gitea.CreateReleaseOption` set by `newRelease`. -/
structure CreateReleaseOption where
  TagName : String
  IsDraft : Bool
  IsPrerelease : Bool
  Title : String
  Note : String
deriving DecidableEq, Repr

/-- The fields of `gitea.EditReleaseOption` set by `editRelease`. -/
structure EditReleaseOption where
  TagName : String
  IsDraft : Bool
  IsPrerelease : Bool
  Title : String
  Note : String
deriving DecidableEq, Repr

/-- One remote call, with the arguments the program passes.  In
`CreateReleaseAttachment` the reader argument is identified by the path it was
opened from (`file`); `name` is the attachment name. -/
inductive Call where
  | ListReleases (owner repo : String)
  | CreateRelease (owner repo : String) (opt : CreateReleaseOption)
  | EditRelease (owner repo : String) (id : Int) (opt : EditReleaseOption)
  | ListReleaseAttachments (owner repo : String) (release : Int)
  | DeleteReleaseAttachment (owner repo : String) (release : Int) (id : Int)
  | CreateReleaseAttachment (owner repo : String) (release : Int) (file name : String)
deriving DecidableEq, Repr

/-- The `gitea.Client` methods the program uses.  The first argument of each is
the list of calls issued before this one. -/
structure Client where
  ListReleases : List Call → String → String → Except String (List Release)
  CreateRelease : List Call → String → String → CreateReleaseOption → Except String Release
  EditRelease : List Call → String → String → Int → EditReleaseOption → Except String Release
  ListReleaseAttachments : List Call → String → String → Int → Except String (List Attachment)
  DeleteReleaseAttachment : List Call → String → String → Int → Int → Except String Unit
  CreateReleaseAttachment :
    List Call → String → String → Int → String → String → Except String Attachment

/-- The observable state of a run: remote calls issued (oldest first) and the
text written to standard output (oldest first). -/
structure St where
  calls : List Call
  out : List String
deriving DecidableEq, Repr

/-- The state before anything has happened. -/
def St.init : St := ⟨[], []⟩

/-- Record a remote call. -/
def St.call (s : St) (c : Call) : St := { s with calls := s.calls ++ [c] }

/-- Record a write to standard output (`fmt.Printf` / `fmt.Println`). -/
def St.print (s : St) (line : String) : St := { s with out := s.out ++ [line] }

/-! ## `path.Base` -/

/-- Go `path.Base` on the characters of the path, for a non-empty path: strip
trailing slashes, keep what follows the last slash, and answer `/` when nothing
is left. -/
def baseChars (cs : List Char) : List Char :=
  let stripped := (cs.reverse.dropWhile (fun c => c == '/')).reverse
  let last := (stripped.reverse.takeWhile (fun c => c != '/')).reverse
  if last = [] then ['/'] else last

/-- Go `path.Base`: the last element of a slash-separated path; `.` for the
empty path. -/
def pathBase (path : String) : String :=
  if path = "" then "." else String.mk (baseChars path.data)

/-! ## `release.go` -/

/-- The struct `releaseClient` of `release.go`. -/
structure releaseClient where
  Client : Client
  Owner : String
  Repo : String
  Tag : String
  Draft : Bool
  Prerelease : Bool
  FileExists : String
  Title : String
  Note : String
  AllowEdit : Bool

/-- The method `releaseClient.getRelease`: list the releases and return the first
whose `TagName` equals `rc.Tag`. -/
def getRelease (rc : releaseClient) (s : St) : Except String Release × St :=
  match rc.Client.ListReleases s.calls rc.Owner rc.Repo with
  | .error err => (.error err, s.call (.ListReleases rc.Owner rc.Repo))
  | .ok releases =>
    let s1 := s.call (.ListReleases rc.Owner rc.Repo)
    match releases.find? (fun release => release.TagName == rc.Tag) with
    | some release =>
      (.ok release, s1.print ("Successfully retrieved " ++ rc.Tag ++ " release\n"))
    | none => (.error ("Release " ++ rc.Tag ++ " not found"), s1)

/-- The option value built by `newRelease`. -/
def createOption (rc : releaseClient) : CreateReleaseOption :=
  { TagName := rc.Tag, IsDraft := rc.Draft, IsPrerelease := rc.Prerelease,
    Title := rc.Title, Note := rc.Note }

/-- The option value built by `editRelease`. -/
def editOption (rc : releaseClient) : EditReleaseOption :=
  { TagName := rc.Tag, IsDraft := rc.Draft, IsPrerelease := rc.Prerelease,
    Title := rc.Title, Note := rc.Note }

/-- The method `releaseClient.newRelease`. -/
def newRelease (rc : releaseClient) (s : St) : Except String Release × St :=
  match rc.Client.CreateRelease s.calls rc.Owner rc.Repo (createOption rc) with
  | .error err =>
    (.error ("Failed to create release: " ++ err),
      s.call (.CreateRelease rc.Owner rc.Repo (createOption rc)))
  | .ok release =>
    (.ok release,
      (s.call (.CreateRelease rc.Owner rc.Repo (createOption rc))).print
        ("Successfully created " ++ rc.Tag ++ " release\n"))

/-- The method `releaseClient.editRelease`. -/
def editRelease (rc : releaseClient) (id : Int) (s : St) : Except String Release × St :=
  match rc.Client.EditRelease s.calls rc.Owner rc.Repo id (editOption rc) with
  | .error err =>
    (.error ("Failed to edit release: " ++ err),
      s.call (.EditRelease rc.Owner rc.Repo id (editOption rc)))
  | .ok release =>
    (.ok release,
      (s.call (.EditRelease rc.Owner rc.Repo id (editOption rc))).print
        ("Successfully edited " ++ rc.Tag ++ " release\n"))

/-- The method `releaseClient.buildRelease`. -/
def buildRelease (rc : releaseClient) (s : St) : Except String Release × St :=
  match getRelease rc s with
  | (.ok release, s1) =>
    if rc.AllowEdit then
      match editRelease rc release.ID s1 with
      | (.error err, s2) => (.error err, s2)
      | (.ok edited, s2) => (.ok edited, s2)
    else (.ok release, s1)
  | (.error err, s1) =>
    match newRelease rc (s1.print (err ++ "\n")) with
    | (.error err2, s2) =>
      (.error ("Failed to retrieve or create a release: " ++ err2), s2)
    | (.ok release, s2) => (.ok release, s2)

/-- What the inner loop of the partition phase decides for one file. -/
inductive Verdict where
  | upload
  | skip (notice : String)
  | abort (err : String)
deriving DecidableEq, Repr

/-- The inner loop of the partition phase of `uploadFiles` (lines 117-131) for
one file: compare `path.Base(file)` with each attachment name in list order and
apply `rc.FileExists` at every match. -/
def scanAttachments (fileExists file : String) : List Attachment → Verdict
  | [] => .upload
  | attachment :: rest =>
    if attachment.Name = pathBase file then
      if fileExists = "overwrite" then scanAttachments fileExists file rest
      else if fileExists = "fail" then
        .abort ("Asset file " ++ pathBase file ++ " already exists")
      else if fileExists = "skip" then
        .skip ("Skipping pre-existing " ++ attachment.Name ++ " artifact\n")
      else .abort ("Internal error, unknown file_exist value " ++ fileExists)
    else scanAttachments fileExists file rest

/-- The partition phase of `uploadFiles` (lines 113-134): the outer loop over
`files`, accumulating the upload set in `acc`. -/
def partitionFiles (fileExists : String) (attachments : List Attachment) :
    List String → List String → St → Except String (List String) × St
  | [], acc, s => (.ok acc, s)
  | file :: rest, acc, s =>
    match scanAttachments fileExists file attachments with
    | .upload => partitionFiles fileExists attachments rest (acc ++ [file]) s
    | .skip notice => partitionFiles fileExists attachments rest acc (s.print notice)
    | .abort err => (.error err, s)

/-- The delete loop of the upload phase (lines 143-149), run for `file`. -/
def deleteAttachments (rc : releaseClient) (releaseID : Int) (file : String) :
    List Attachment → St → Except String Unit × St
  | [], s => (.ok (), s)
  | attachment :: rest, s =>
    match rc.Client.DeleteReleaseAttachment s.calls rc.Owner rc.Repo releaseID attachment.ID with
    | .error err =>
      (.error ("Failed to delete " ++ file ++ " artifact: " ++ err),
        s.call (.DeleteReleaseAttachment rc.Owner rc.Repo releaseID attachment.ID))
    | .ok _ =>
      deleteAttachments rc releaseID file rest
        ((s.call (.DeleteReleaseAttachment rc.Owner rc.Repo releaseID attachment.ID)).print
          ("Successfully deleted old " ++ attachment.Name ++ " artifact\n"))

/-- The upload phase of `uploadFiles` (lines 136-156).  `osOpen` is `os.Open`:
`none` when the file opens, the error otherwise. -/
def uploadLoop (osOpen : String → Option String) (rc : releaseClient) (releaseID : Int)
    (attachments : List Attachment) : List String → St → Except String Unit × St
  | [], s => (.ok (), s)
  | file :: rest, s =>
    match osOpen file with
    | some err => (.error ("Failed to read " ++ file ++ " artifact: " ++ err), s)
    | none =>
      match deleteAttachments rc releaseID file attachments s with
      | (.error err, s1) => (.error err, s1)
      | (.ok _, s1) =>
        match rc.Client.CreateReleaseAttachment s1.calls rc.Owner rc.Repo releaseID file
            (pathBase file) with
        | .error err =>
          (.error ("Failed to upload " ++ file ++ " artifact: " ++ err),
            s1.call (.CreateReleaseAttachment rc.Owner rc.Repo releaseID file (pathBase file)))
        | .ok _ =>
          uploadLoop osOpen rc releaseID attachments rest
            ((s1.call
                (.CreateReleaseAttachment rc.Owner rc.Repo releaseID file (pathBase file))).print
              ("Successfully uploaded " ++ file ++ " artifact\n"))

/-- The method `releaseClient.uploadFiles`. -/
def uploadFiles (osOpen : String → Option String) (rc : releaseClient) (releaseID : Int)
    (files : List String) (s : St) : Except String Unit × St :=
  match rc.Client.ListReleaseAttachments s.calls rc.Owner rc.Repo releaseID with
  | .error err =>
    (.error ("Failed to fetch existing assets: " ++ err),
      s.call (.ListReleaseAttachments rc.Owner rc.Repo releaseID))
  | .ok attachments =>
    let s1 := s.call (.ListReleaseAttachments rc.Owner rc.Repo releaseID)
    match partitionFiles rc.FileExists attachments files [] s1 with
    | (.error err, s2) => (.error err, s2)
    | (.ok uploadSet, s2) => uploadLoop osOpen rc releaseID attachments uploadSet s2

/-! ## `plugin.go` -/

/-- The struct `Repo` of `plugin.go`. -/
structure Repo where
  Owner : String
  Name : String
deriving DecidableEq, Repr

/-- The struct `Build` of `plugin.go`. -/
structure Build where
  Event : String
deriving DecidableEq, Repr

/-- The struct `Commit` of `plugin.go`. -/
structure Commit where
  Ref : String
deriving DecidableEq, Repr

/-- The struct `Config` of `plugin.go`. -/
structure Config where
  APIKey : String
  Files : List String
  FileExists : String
  Checksum : List String
  Draft : Bool
  PreRelease : Bool
  Insecure : Bool
  BaseURL : String
  Title : String
  Note : String
  Tag : String
  AllowEdit : Bool
deriving DecidableEq, Repr

/-- The struct `Plugin` of `plugin.go`. -/
structure Plugin where
  Repo : Repo
  Build : Build
  Commit : Commit
  Config : Config
deriving DecidableEq, Repr

/-- A non-nil error of `os.Stat`: its message and what `os.IsNotExist` answers
for it. -/
structure StatError where
  msg : String
  isNotExist : Bool
deriving DecidableEq, Repr

/-- What the program uses from outside `release.go` and `plugin.go`: the local
file system (`os.Stat`, `ioutil.ReadFile`, `filepath.Glob`, `os.Open`), the
checksum writer `writeChecksums` (declared in another file of the repository) and
the SDK constructor `gitea.NewClient` (base URL, token, whether the insecure
HTTP client is passed). -/
structure Env where
  Stat : String → Option StatError
  ReadFile : String → Except String String
  Glob : String → Except String (List String)
  Open : String → Option String
  writeChecksums : List String → List String → Except String (List String)
  NewClient : String → String → Bool → Except String Client

/-- Modelled from the spec: the table `fileExistsValues`, declared outside
`plugin.go` and `release.go`.  The spec (section 3, `FileExistsPolicy`) admits
exactly `overwrite`, `fail` and `skip`; a Go map lookup of any other key is
`false`. -/
def fileExistsValues (v : String) : Bool :=
  v = "overwrite" || v = "fail" || v = "skip"

/-- Go `strings.TrimPrefix`. -/
def trimPrefix (s pre : String) : String :=
  if pre.data.isPrefixOf s.data then String.mk (s.data.drop pre.data.length) else s

/-- Go `strings.HasSuffix`. -/
def hasSuffix (s suf : String) : Bool :=
  suf.data.isSuffixOf s.data

/-- The function `readStringOrFile` of `plugin.go`. -/
def readStringOrFile (env : Env) (input : String) : Except String String :=
  match env.Stat input with
  | some err => if err.isNotExist then .ok input else .error err.msg
  | none =>
    match env.ReadFile input with
    | .error err => .error err
    | .ok result => .ok result

/-- Lines 63-69 of `Exec`: the tag after resolution.  On a read error
`p.Config.Tag` has already been overwritten with the empty string returned by
`readStringOrFile`, so the message names the empty string. -/
def resolveTag (env : Env) (p : Plugin) : Except String String :=
  if p.Config.Tag ≠ "" then
    match readStringOrFile env p.Config.Tag with
    | .error err => .error ("error while reading " ++ "" ++ ": " ++ err)
    | .ok tag => .ok tag
  else .ok (trimPrefix p.Commit.Ref "refs/tags/")

/-- Lines 87-91 of `Exec`: the note after resolution. -/
def resolveNote (env : Env) (p : Plugin) : Except String String :=
  if p.Config.Note ≠ "" then
    match readStringOrFile env p.Config.Note with
    | .error err => .error ("error while reading " ++ "" ++ ": " ++ err)
    | .ok note => .ok note
  else .ok p.Config.Note

/-- Lines 93-97 of `Exec`: the title after resolution.  The error message names
the resolved note, as the source does. -/
def resolveTitle (env : Env) (p : Plugin) (note : String) : Except String String :=
  if p.Config.Title ≠ "" then
    match readStringOrFile env p.Config.Title with
    | .error err => .error ("error while reading " ++ note ++ ": " ++ err)
    | .ok title => .ok title
  else .ok p.Config.Title

/-- Lines 99-109 of `Exec`: expand the glob patterns in order. -/
def globFiles (env : Env) : List String → List String → Except String (List String)
  | [], files => .ok files
  | glob :: rest, files =>
    match env.Glob glob with
    | .error err => .error ("Failed to glob " ++ glob ++ ". " ++ err)
    | .ok globed => globFiles env rest (files ++ globed)

/-- Lines 111-121 of `Exec`: append the checksum files when algorithms are
configured. -/
def checksumFiles (env : Env) (p : Plugin) (files : List String) :
    Except String (List String) :=
  if p.Config.Checksum.length > 0 then
    match env.writeChecksums files p.Config.Checksum with
    | .error err => .error ("Failed to write checksums. " ++ err)
    | .ok files2 => .ok files2
  else .ok files

/-- Lines 138-155 of `Exec`: the `releaseClient` handed to `buildRelease`, with
the title defaulting to the tag. -/
def mkReleaseClient (client : Client) (p : Plugin) (tag title note : String) :
    releaseClient :=
  { Client := client
    Owner := p.Repo.Owner
    Repo := p.Repo.Name
    Tag := tag
    Draft := p.Config.Draft
    Prerelease := p.Config.PreRelease
    FileExists := p.Config.FileExists
    Title := if title = "" then tag else title
    Note := note
    AllowEdit := p.Config.AllowEdit }

/-- The method `Plugin.Exec`. -/
def Exec (env : Env) (p : Plugin) : Except String Unit × St :=
  if p.Build.Event ≠ "tag" ∧ p.Config.Tag.length = 0 then
    (.error "The Gitea Release plugin is only available for tags", St.init)
  else
  match resolveTag env p with
  | .error err => (.error err, St.init)
  | .ok tag =>
  if p.Config.APIKey = "" then (.error "You must provide an API key", St.init)
  else if ¬ fileExistsValues p.Config.FileExists then
    (.error "Invalid value for file_exists", St.init)
  else if p.Config.BaseURL = "" then (.error "You must provide a base url.", St.init)
  else
  let baseURL := if hasSuffix p.Config.BaseURL "/" then p.Config.BaseURL
    else p.Config.BaseURL ++ "/"
  match resolveNote env p with
  | .error err => (.error err, St.init)
  | .ok note =>
  match resolveTitle env p note with
  | .error err => (.error err, St.init)
  | .ok title =>
  match globFiles env p.Config.Files [] with
  | .error err => (.error err, St.init)
  | .ok globbed =>
  match checksumFiles env p globbed with
  | .error err => (.error err, St.init)
  | .ok files =>
  match env.NewClient baseURL p.Config.APIKey p.Config.Insecure with
  | .error err => (.error err, St.init)
  | .ok client =>
  let rc := mkReleaseClient client p tag title note
  match buildRelease rc St.init with
  | (.error err, s1) => (.error ("Failed to create the release. " ++ err), s1)
  | (.ok release, s1) =>
    match uploadFiles env.Open rc release.ID files s1 with
    | (.error err, s2) => (.error ("Failed to upload the files. " ++ err), s2)
    | (.ok _, s2) => (.ok (), s2)

/-! ## Readings of the specification used in the statements below -/

/-- The spec's validation rules 1-4 (section 4.1), in the spec's order: the error
of the first violated rule, `none` when none is violated. -/
def firstViolation (env : Env) (p : Plugin) : Option String :=
  if p.Build.Event ≠ "tag" ∧ p.Config.Tag = "" then
    some "The Gitea Release plugin is only available for tags"
  else
    match (if p.Config.Tag = "" then Except.ok "" else readStringOrFile env p.Config.Tag) with
    | .error err => some ("error while reading : " ++ err)
    | .ok _ =>
      if p.Config.APIKey = "" then some "You must provide an API key"
      else if p.Config.FileExists ≠ "overwrite" ∧ p.Config.FileExists ≠ "fail"
          ∧ p.Config.FileExists ≠ "skip" then
        some "Invalid value for file_exists"
      else if p.Config.BaseURL = "" then some "You must provide a base url."
      else none

/-- Whether a call is a delete-attachment call. -/
def Call.isDelete : Call → Bool
  | .DeleteReleaseAttachment _ _ _ _ => true
  | _ => false

/-- Whether `file` collides with an attachment of the list: its base name is the
name of one of them. -/
def collides (attachments : List Attachment) (file : String) : Bool :=
  attachments.any (fun a => a.Name == pathBase file)

/-- The calls one uploaded file costs when nothing fails: one delete per fetched
attachment, in list order, then one create-attachment call named by the file's
base name. -/
def callsForFile (rc : releaseClient) (releaseID : Int) (attachments : List Attachment)
    (file : String) : List Call :=
  attachments.map (fun a => .DeleteReleaseAttachment rc.Owner rc.Repo releaseID a.ID)
    ++ [.CreateReleaseAttachment rc.Owner rc.Repo releaseID file (pathBase file)]

/-- The spec's "trimmed" (sections 4.1 and 8): the text without its leading and
trailing white space. -/
def trimSpace (s : String) : String :=
  String.mk ((s.data.dropWhile Char.isWhitespace).reverse.dropWhile Char.isWhitespace).reverse

deriving instance DecidableEq for Except

/-! ## Concrete inputs -/

/-- A server on which every call succeeds: it lists `releases` and `attachments`,
creates the release with ID 100, and answers an edit with the edited release. -/
def demoClient (releases : List Release) (attachments : List Attachment) : Client :=
  { ListReleases := fun _ _ _ => .ok releases
    CreateRelease := fun _ _ _ opt =>
      .ok ⟨100, opt.TagName, opt.Title, opt.Note, opt.IsDraft, opt.IsPrerelease⟩
    EditRelease := fun _ _ _ id opt =>
      .ok ⟨id, opt.TagName, opt.Title, opt.Note, opt.IsDraft, opt.IsPrerelease⟩
    ListReleaseAttachments := fun _ _ _ _ => .ok attachments
    DeleteReleaseAttachment := fun _ _ _ _ _ => .ok ()
    CreateReleaseAttachment := fun _ _ _ _ _ name => .ok ⟨200, name⟩ }

/-- A server whose release listing fails; every other call succeeds. -/
def listFailsClient : Client :=
  { demoClient [] [] with ListReleases := fun _ _ _ => .error "401 Unauthorized" }

/-- A `releaseClient` for tag `v1.0.0` of `octo/app`. -/
def demoRC (client : Client) (fileExists : String) (allowEdit : Bool) : releaseClient :=
  { Client := client, Owner := "octo", Repo := "app", Tag := "v1.0.0", Draft := false,
    Prerelease := true, FileExists := fileExists, Title := "First", Note := "notes",
    AllowEdit := allowEdit }

/-- Two releases carrying the tag `v1.0.0`, after one that does not. -/
def demoReleases : List Release :=
  [⟨1, "v0.9.0", "Old", "", false, false⟩, ⟨2, "v1.0.0", "A", "", false, false⟩,
   ⟨3, "v1.0.0", "B", "", true, false⟩]

/-- A machine whose only file is `tag.txt`, holding `v2.0.0` and a line feed.
`os.Stat` of `tag.txt/x`, a path through that regular file, fails with "not a
directory", an error for which `os.IsNotExist` is false; `os.Stat` of any other
path fails with "no such file or directory".  A glob pattern matches the file of
that name, every file opens, and the checksum writer appends one `.sha256` file
per input file. -/
def demoEnv (client : Client) : Env :=
  { Stat := fun path =>
      if path = "tag.txt" then none
      else if path = "tag.txt/x" then some ⟨"stat tag.txt/x: not a directory", false⟩
      else some ⟨"stat " ++ path ++ ": no such file or directory", true⟩
    ReadFile := fun path =>
      if path = "tag.txt" then .ok "v2.0.0\n"
      else .error ("open " ++ path ++ ": no such file or directory")
    Glob := fun pattern => .ok [pattern]
    Open := fun _ => none
    writeChecksums := fun files _ => .ok (files ++ files.map (fun f => f ++ ".sha256"))
    NewClient := fun _ _ _ => .ok client }

/-- A plugin configuration for `octo/app` at ref `refs/tags/v1.0.0`. -/
def demoPlugin (event tag title : String) (checksum : List String) : Plugin :=
  { Repo := ⟨"octo", "app"⟩
    Build := ⟨event⟩
    Commit := ⟨"refs/tags/v1.0.0"⟩
    Config :=
      { APIKey := "secret", Files := ["out.bin"], FileExists := "overwrite",
        Checksum := checksum, Draft := false, PreRelease := false, Insecure := false,
        BaseURL := "https://git.example.org", Title := title, Note := "", Tag := tag,
        AllowEdit := false } }

/-- Attachments already on the release. -/
def demoAttachments : List Attachment := [⟨1, "b.bin"⟩, ⟨2, "notes.txt"⟩]

/-- Local files to upload; the second collides with attachment 1. -/
def demoFiles : List String := ["dist/a.bin", "dist/b.bin", "c.bin"]

/-- The configuration `demoPlugin` for a tag event, without an API key. -/
def noKeyPlugin : Plugin :=
  { demoPlugin "tag" "" "" [] with
    Config := { (demoPlugin "tag" "" "" []).Config with APIKey := "" } }

/-! # Theorems -/

/-! ## Elementary facts about the state -/

@[simp] theorem St.calls_call (s : St) (c : Call) : (s.call c).calls = s.calls ++ [c] := rfl

@[simp] theorem St.calls_print (s : St) (line : String) : (s.print line).calls = s.calls := rfl

@[simp] theorem St.out_call (s : St) (c : Call) : (s.call c).out = s.out := rfl

@[simp] theorem St.out_print (s : St) (line : String) :
    (s.print line).out = s.out ++ [line] := rfl

/-! ## `getRelease` and `buildRelease` -/

/-- When the listing succeeds and holds a release with the tag, `getRelease`
returns the first such release and issues the list call only. -/
theorem getRelease_found (rc : releaseClient) (s : St) (releases : List Release)
    (hlist : rc.Client.ListReleases s.calls rc.Owner rc.Repo = .ok releases)
    (hex : ∃ x ∈ releases, x.TagName = rc.Tag) :
    ∃ pre r post, releases = pre ++ r :: post ∧ (∀ x ∈ pre, x.TagName ≠ rc.Tag)
      ∧ r.TagName = rc.Tag
      ∧ getRelease rc s = (.ok r, (s.call (.ListReleases rc.Owner rc.Repo)).print
          ("Successfully retrieved " ++ rc.Tag ++ " release\n")) := by
  obtain ⟨x, hx, hxt⟩ := hex
  cases hfind : releases.find? (fun release => release.TagName == rc.Tag) with
  | none =>
    rw [List.find?_eq_none] at hfind
    exact absurd (by simpa using hxt) (hfind x hx)
  | some r =>
    obtain ⟨hr, pre, post, hsplit, hpre⟩ := List.find?_eq_some.mp hfind
    refine ⟨pre, r, post, hsplit, ?_, by simpa using hr, ?_⟩
    · intro y hy
      simpa using hpre y hy
    · simp [getRelease, hlist, hfind]

/-- When the listing fails, or succeeds without a release of the tag,
`getRelease` returns an error and issues the list call only. -/
theorem getRelease_not_found (rc : releaseClient) (s : St)
    (hnone : (∃ err, rc.Client.ListReleases s.calls rc.Owner rc.Repo = .error err)
      ∨ ∃ releases, rc.Client.ListReleases s.calls rc.Owner rc.Repo = .ok releases
          ∧ ∀ x ∈ releases, x.TagName ≠ rc.Tag) :
    ∃ err, getRelease rc s = (.error err, s.call (.ListReleases rc.Owner rc.Repo)) := by
  rcases hnone with ⟨err, herr⟩ | ⟨releases, hlist, hno⟩
  · exact ⟨err, by simp [getRelease, herr]⟩
  · have hfind : releases.find? (fun release => release.TagName == rc.Tag) = none := by
      rw [List.find?_eq_none]
      intro x hx
      simpa using hno x hx
    exact ⟨"Release " ++ rc.Tag ++ " not found", by simp [getRelease, hlist, hfind]⟩

/-- C4. With `AllowEdit = false`, when the listing succeeds and contains a release
whose `TagName` equals the tag, `buildRelease` returns, unchanged, the first
release in list order with that tag, and the only call it issues is the list
call: no edit call and no create call. -/
theorem buildRelease_found_returns_first_unchanged (rc : releaseClient) (s : St)
    (releases : List Release)
    (hedit : rc.AllowEdit = false)
    (hlist : rc.Client.ListReleases s.calls rc.Owner rc.Repo = .ok releases)
    (hex : ∃ x ∈ releases, x.TagName = rc.Tag) :
    ∃ pre r post, releases = pre ++ r :: post ∧ (∀ x ∈ pre, x.TagName ≠ rc.Tag)
      ∧ r.TagName = rc.Tag
      ∧ (buildRelease rc s).1 = .ok r
      ∧ (buildRelease rc s).2.calls = s.calls ++ [.ListReleases rc.Owner rc.Repo] := by
  obtain ⟨pre, r, post, hsplit, hpre, hr, hget⟩ := getRelease_found rc s releases hlist hex
  exact ⟨pre, r, post, hsplit, hpre, hr, by simp [buildRelease, hget, hedit],
    by simp [buildRelease, hget, hedit]⟩

/-- C5. With `AllowEdit = true`, when the listing succeeds and contains a release
with the tag, `buildRelease` issues the list call and then exactly one edit call,
for the ID of the first matching release and carrying `rc`'s tag, draft,
prerelease, title and note; it issues no create call.  If the edit call fails
`buildRelease` returns an error (still without a create call); if it succeeds
`buildRelease` returns the release the edit call returned. -/
theorem buildRelease_found_edits_once (rc : releaseClient) (s : St)
    (releases : List Release)
    (hedit : rc.AllowEdit = true)
    (hlist : rc.Client.ListReleases s.calls rc.Owner rc.Repo = .ok releases)
    (hex : ∃ x ∈ releases, x.TagName = rc.Tag) :
    ∃ pre r post, releases = pre ++ r :: post ∧ (∀ x ∈ pre, x.TagName ≠ rc.Tag)
      ∧ r.TagName = rc.Tag
      ∧ (buildRelease rc s).2.calls = s.calls ++
          [.ListReleases rc.Owner rc.Repo,
           .EditRelease rc.Owner rc.Repo r.ID
              ⟨rc.Tag, rc.Draft, rc.Prerelease, rc.Title, rc.Note⟩]
      ∧ (∀ err, rc.Client.EditRelease (s.calls ++ [.ListReleases rc.Owner rc.Repo])
            rc.Owner rc.Repo r.ID ⟨rc.Tag, rc.Draft, rc.Prerelease, rc.Title, rc.Note⟩
              = .error err →
          (buildRelease rc s).1 = .error ("Failed to edit release: " ++ err))
      ∧ (∀ edited, rc.Client.EditRelease (s.calls ++ [.ListReleases rc.Owner rc.Repo])
            rc.Owner rc.Repo r.ID ⟨rc.Tag, rc.Draft, rc.Prerelease, rc.Title, rc.Note⟩
              = .ok edited →
          (buildRelease rc s).1 = .ok edited) := by
  obtain ⟨pre, r, post, hsplit, hpre, hr, hget⟩ := getRelease_found rc s releases hlist hex
  refine ⟨pre, r, post, hsplit, hpre, hr, ?_, ?_, ?_⟩
  · cases hcall : rc.Client.EditRelease (s.calls ++ [.ListReleases rc.Owner rc.Repo])
        rc.Owner rc.Repo r.ID ⟨rc.Tag, rc.Draft, rc.Prerelease, rc.Title, rc.Note⟩ <;>
      simp [buildRelease, hget, hedit, editRelease, hcall, editOption]
  · intro err herr
    simp [buildRelease, hget, hedit, editRelease, herr, editOption]
  · intro edited hok
    simp [buildRelease, hget, hedit, editRelease, hok, editOption]

/-- C6. When the lookup yields no release (the listing fails, or it succeeds with
no release whose `TagName` equals the tag), `buildRelease` issues the list call
and then exactly one create call carrying `rc`'s tag, draft, prerelease, title and
note; it issues no edit call.  If the create call succeeds `buildRelease` returns
the release that call returned; if it fails `buildRelease` returns an error. -/
theorem buildRelease_not_found_creates_once (rc : releaseClient) (s : St)
    (hnone : (∃ err, rc.Client.ListReleases s.calls rc.Owner rc.Repo = .error err)
      ∨ ∃ releases, rc.Client.ListReleases s.calls rc.Owner rc.Repo = .ok releases
          ∧ ∀ x ∈ releases, x.TagName ≠ rc.Tag) :
    (buildRelease rc s).2.calls = s.calls ++
        [.ListReleases rc.Owner rc.Repo,
         .CreateRelease rc.Owner rc.Repo ⟨rc.Tag, rc.Draft, rc.Prerelease, rc.Title, rc.Note⟩]
      ∧ (∀ created, rc.Client.CreateRelease (s.calls ++ [.ListReleases rc.Owner rc.Repo])
            rc.Owner rc.Repo ⟨rc.Tag, rc.Draft, rc.Prerelease, rc.Title, rc.Note⟩
              = .ok created →
          (buildRelease rc s).1 = .ok created)
      ∧ (∀ err, rc.Client.CreateRelease (s.calls ++ [.ListReleases rc.Owner rc.Repo])
            rc.Owner rc.Repo ⟨rc.Tag, rc.Draft, rc.Prerelease, rc.Title, rc.Note⟩
              = .error err →
          (buildRelease rc s).1 = .error
            ("Failed to retrieve or create a release: " ++ ("Failed to create release: " ++ err)))
    := by
  obtain ⟨e, hget⟩ := getRelease_not_found rc s hnone
  refine ⟨?_, ?_, ?_⟩
  · cases hcall : rc.Client.CreateRelease (s.calls ++ [.ListReleases rc.Owner rc.Repo])
        rc.Owner rc.Repo ⟨rc.Tag, rc.Draft, rc.Prerelease, rc.Title, rc.Note⟩ <;>
      simp [buildRelease, hget, newRelease, hcall, createOption]
  · intro created hok
    simp [buildRelease, hget, newRelease, hok, createOption]
  · intro err herr
    simp [buildRelease, hget, newRelease, herr, createOption]

/-! ## The partition phase of `uploadFiles` -/

theorem scanAttachments_no_collision (fileExists file : String) (attachments : List Attachment)
    (h : collides attachments file = false) :
    scanAttachments fileExists file attachments = .upload := by
  induction attachments with
  | nil => rfl
  | cons a rest ih =>
    simp only [collides, List.any_cons, Bool.or_eq_false_iff, beq_eq_false_iff_ne] at h
    simp only [scanAttachments, h.1, if_false]
    exact ih (by simpa [collides] using h.2)

theorem scanAttachments_fail (file : String) (attachments : List Attachment)
    (h : collides attachments file = true) :
    scanAttachments "fail" file attachments
      = .abort ("Asset file " ++ pathBase file ++ " already exists") := by
  induction attachments with
  | nil => simp [collides] at h
  | cons a rest ih =>
    by_cases ha : a.Name = pathBase file
    · simp [scanAttachments, ha]
    · simp only [scanAttachments, ha, if_false]
      apply ih
      simpa [collides, ha] using h

theorem scanAttachments_skip (file : String) (attachments : List Attachment)
    (h : collides attachments file = true) :
    ∃ notice, scanAttachments "skip" file attachments = .skip notice := by
  induction attachments with
  | nil => simp [collides] at h
  | cons a rest ih =>
    by_cases ha : a.Name = pathBase file
    · exact ⟨"Skipping pre-existing " ++ a.Name ++ " artifact\n", by simp [scanAttachments, ha]⟩
    · simp only [scanAttachments, ha, if_false]
      apply ih
      simpa [collides, ha] using h

/-- The partition phase issues no remote call. -/
theorem partitionFiles_calls (fileExists : String) (attachments : List Attachment)
    (files acc : List String) (s : St) :
    (partitionFiles fileExists attachments files acc s).2.calls = s.calls := by
  induction files generalizing acc s with
  | nil => rfl
  | cons f rest ih =>
    simp only [partitionFiles]
    cases scanAttachments fileExists f attachments with
    | upload => exact ih _ _
    | skip notice => simpa using ih acc (s.print notice)
    | abort err => rfl

/-- Under `skip` the partition phase never aborts, and the upload set is the
input list, in order, without the colliding files. -/
theorem partitionFiles_skip (attachments : List Attachment) (files acc : List String) (s : St) :
    (partitionFiles "skip" attachments files acc s).1
      = .ok (acc ++ files.filter (fun f => !collides attachments f)) := by
  induction files generalizing acc s with
  | nil => simp [partitionFiles]
  | cons f rest ih =>
    cases hc : collides attachments f with
    | false =>
      simp only [partitionFiles, scanAttachments_no_collision _ _ _ hc]
      rw [ih]
      simp [List.filter_cons, hc]
    | true =>
      obtain ⟨notice, hn⟩ := scanAttachments_skip f attachments hc
      simp only [partitionFiles, hn]
      rw [ih]
      simp [List.filter_cons, hc]

/-- Under `fail` the partition phase aborts at the first colliding file. -/
theorem partitionFiles_fail (attachments : List Attachment) (pre : List String) (f : String)
    (post acc : List String) (s : St)
    (hpre : ∀ g ∈ pre, collides attachments g = false)
    (hf : collides attachments f = true) :
    partitionFiles "fail" attachments (pre ++ f :: post) acc s
      = (.error ("Asset file " ++ pathBase f ++ " already exists"), s) := by
  induction pre generalizing acc with
  | nil => simp [partitionFiles, scanAttachments_fail f attachments hf]
  | cons g rest ih =>
    have hg := hpre g (by simp)
    simp only [List.cons_append, partitionFiles, scanAttachments_no_collision _ _ _ hg]
    exact ih _ (fun x hx => hpre x (List.mem_cons_of_mem _ hx))

/-- A list with a colliding file splits at its first colliding file. -/
theorem first_collision (attachments : List Attachment) (files : List String)
    (h : ∃ f ∈ files, ∃ a ∈ attachments, a.Name = pathBase f) :
    ∃ pre f post, files = pre ++ f :: post ∧ (∀ g ∈ pre, collides attachments g = false)
      ∧ collides attachments f = true := by
  obtain ⟨f, hf, a, ha, hname⟩ := h
  have hcol : collides attachments f = true := by
    simp only [collides, List.any_eq_true, beq_iff_eq]
    exact ⟨a, ha, hname⟩
  cases hfind : files.find? (fun g => collides attachments g) with
  | none =>
    rw [List.find?_eq_none] at hfind
    exact absurd hcol (hfind f hf)
  | some g =>
    obtain ⟨hg, pre, post, hsplit, hpre⟩ := List.find?_eq_some.mp hfind
    exact ⟨pre, g, post, hsplit, fun x hx => by simpa using hpre x hx, hg⟩

/-! ## The upload phase of `uploadFiles` -/

/-- The delete loop issues delete calls only. -/
theorem deleteAttachments_calls (rc : releaseClient) (releaseID : Int) (file : String)
    (attachments : List Attachment) (s : St) :
    ∃ new, (deleteAttachments rc releaseID file attachments s).2.calls = s.calls ++ new
      ∧ ∀ c ∈ new, ∃ a ∈ attachments,
          c = .DeleteReleaseAttachment rc.Owner rc.Repo releaseID a.ID := by
  induction attachments generalizing s with
  | nil => exact ⟨[], by simp [deleteAttachments]⟩
  | cons a rest ih =>
    simp only [deleteAttachments]
    cases rc.Client.DeleteReleaseAttachment s.calls rc.Owner rc.Repo releaseID a.ID with
    | error err =>
      exact ⟨[.DeleteReleaseAttachment rc.Owner rc.Repo releaseID a.ID], by simp, by simp⟩
    | ok _ =>
      obtain ⟨new, hnew, hall⟩ := ih
        ((s.call (.DeleteReleaseAttachment rc.Owner rc.Repo releaseID a.ID)).print
          ("Successfully deleted old " ++ a.Name ++ " artifact\n"))
      refine ⟨.DeleteReleaseAttachment rc.Owner rc.Repo releaseID a.ID :: new, ?_, ?_⟩
      · simpa using hnew
      · intro c hc
        rcases List.mem_cons.mp hc with rfl | hc
        · exact ⟨a, by simp, rfl⟩
        · obtain ⟨b, hb, hcb⟩ := hall c hc
          exact ⟨b, List.mem_cons_of_mem _ hb, hcb⟩

/-- When every delete call succeeds, the delete loop deletes every attachment of
the list, in list order. -/
theorem deleteAttachments_ok (rc : releaseClient) (releaseID : Int) (file : String)
    (attachments : List Attachment)
    (hdel : ∀ h, ∀ a ∈ attachments,
      rc.Client.DeleteReleaseAttachment h rc.Owner rc.Repo releaseID a.ID = .ok ())
    (s : St) :
    (deleteAttachments rc releaseID file attachments s).1 = .ok ()
      ∧ (deleteAttachments rc releaseID file attachments s).2.calls = s.calls ++
          attachments.map (fun a => .DeleteReleaseAttachment rc.Owner rc.Repo releaseID a.ID)
    := by
  induction attachments generalizing s with
  | nil => simp [deleteAttachments]
  | cons a rest ih =>
    have h1 := hdel s.calls a (by simp)
    have h2 := ih (fun h b hb => hdel h b (List.mem_cons_of_mem _ hb))
      ((s.call (.DeleteReleaseAttachment rc.Owner rc.Repo releaseID a.ID)).print
        ("Successfully deleted old " ++ a.Name ++ " artifact\n"))
    simp only [deleteAttachments, h1]
    exact ⟨h2.1, by simpa using h2.2⟩

/-- The upload phase issues only delete calls for fetched attachments and
create-attachment calls for files of the upload set, whatever fails. -/
theorem uploadLoop_calls (osOpen : String → Option String) (rc : releaseClient)
    (releaseID : Int) (attachments : List Attachment) (uploadSet : List String) (s : St) :
    ∃ new, (uploadLoop osOpen rc releaseID attachments uploadSet s).2.calls = s.calls ++ new
      ∧ ∀ c ∈ new,
          (∃ a ∈ attachments, c = .DeleteReleaseAttachment rc.Owner rc.Repo releaseID a.ID)
          ∨ ∃ f ∈ uploadSet,
              c = .CreateReleaseAttachment rc.Owner rc.Repo releaseID f (pathBase f) := by
  induction uploadSet generalizing s with
  | nil => exact ⟨[], by simp [uploadLoop]⟩
  | cons f rest ih =>
    simp only [uploadLoop]
    cases osOpen f with
    | some err => exact ⟨[], by simp⟩
    | none =>
      obtain ⟨dels, hdels, hall⟩ := deleteAttachments_calls rc releaseID f attachments s
      rcases hd : deleteAttachments rc releaseID f attachments s with ⟨res, s1⟩
      rw [hd] at hdels
      simp only at hdels
      cases res with
      | error err =>
        exact ⟨dels, by simpa using hdels, fun c hc => Or.inl (hall c hc)⟩
      | ok u =>
        simp only
        cases rc.Client.CreateReleaseAttachment s1.calls rc.Owner rc.Repo releaseID f
            (pathBase f) with
        | error err =>
          refine ⟨dels ++ [.CreateReleaseAttachment rc.Owner rc.Repo releaseID f (pathBase f)],
            by simp [hdels], ?_⟩
          intro c hc
          rcases List.mem_append.mp hc with hc | hc
          · exact Or.inl (hall c hc)
          · exact Or.inr ⟨f, by simp, by simpa using hc⟩
        | ok att =>
          obtain ⟨new, hnew, hall2⟩ := ih
            ((s1.call
                (.CreateReleaseAttachment rc.Owner rc.Repo releaseID f (pathBase f))).print
              ("Successfully uploaded " ++ f ++ " artifact\n"))
          refine ⟨dels ++ .CreateReleaseAttachment rc.Owner rc.Repo releaseID f (pathBase f)
            :: new, by simpa [hdels] using hnew, ?_⟩
          intro c hc
          rcases List.mem_append.mp hc with hc | hc
          · exact Or.inl (hall c hc)
          · rcases List.mem_cons.mp hc with rfl | hc
            · exact Or.inr ⟨f, by simp, rfl⟩
            · rcases hall2 c hc with h | ⟨g, hg, hcg⟩
              · exact Or.inl h
              · exact Or.inr ⟨g, List.mem_cons_of_mem _ hg, hcg⟩

/-- When every file opens and every delete and create-attachment call succeeds,
the upload phase succeeds and issues `callsForFile` for each file of the upload
set, in order. -/
theorem uploadLoop_ok (osOpen : String → Option String) (rc : releaseClient)
    (releaseID : Int) (attachments : List Attachment) (uploadSet : List String)
    (hopen : ∀ f ∈ uploadSet, osOpen f = none)
    (hdel : ∀ h, ∀ a ∈ attachments,
      rc.Client.DeleteReleaseAttachment h rc.Owner rc.Repo releaseID a.ID = .ok ())
    (hcreate : ∀ h, ∀ f ∈ uploadSet, ∃ att,
      rc.Client.CreateReleaseAttachment h rc.Owner rc.Repo releaseID f (pathBase f) = .ok att)
    (s : St) :
    (uploadLoop osOpen rc releaseID attachments uploadSet s).1 = .ok ()
      ∧ (uploadLoop osOpen rc releaseID attachments uploadSet s).2.calls = s.calls ++
          uploadSet.flatMap (callsForFile rc releaseID attachments) := by
  induction uploadSet generalizing s with
  | nil => simp [uploadLoop]
  | cons f rest ih =>
    have ho := hopen f (by simp)
    obtain ⟨hd1, hd2⟩ := deleteAttachments_ok rc releaseID f attachments hdel s
    rcases hd : deleteAttachments rc releaseID f attachments s with ⟨res, s1⟩
    rw [hd] at hd1 hd2
    simp only at hd1 hd2
    subst hd1
    obtain ⟨att, hc⟩ := hcreate s1.calls f (by simp)
    have h2 := ih (fun g hg => hopen g (List.mem_cons_of_mem _ hg))
      (fun h g hg => hcreate h g (List.mem_cons_of_mem _ hg))
      ((s1.call (.CreateReleaseAttachment rc.Owner rc.Repo releaseID f (pathBase f))).print
        ("Successfully uploaded " ++ f ++ " artifact\n"))
    simp only [uploadLoop, ho, hd, hc]
    refine ⟨h2.1, ?_⟩
    rw [h2.2]
    simp [hd2, callsForFile]

theorem callsForFile_deletes (rc : releaseClient) (releaseID : Int)
    (attachments : List Attachment) (file : String) :
    ((callsForFile rc releaseID attachments file).filter Call.isDelete).length
      = attachments.length := by
  have h : ∀ l : List Attachment,
      ((l.map (fun a => Call.DeleteReleaseAttachment rc.Owner rc.Repo releaseID a.ID)).filter
        Call.isDelete).length = l.length := by
    intro l
    induction l with
    | nil => rfl
    | cons a rest ih => simp [List.filter_cons, Call.isDelete, ih]
  simp [callsForFile, List.filter_append, h, List.filter_cons, Call.isDelete]

theorem flatMap_callsForFile_deletes (rc : releaseClient) (releaseID : Int)
    (attachments : List Attachment) (uploadSet : List String) :
    ((uploadSet.flatMap (callsForFile rc releaseID attachments)).filter Call.isDelete).length
      = uploadSet.length * attachments.length := by
  induction uploadSet with
  | nil => simp
  | cons f rest ih =>
    simp only [List.flatMap_cons, List.filter_append, List.length_append, ih,
      callsForFile_deletes, List.length_cons]
    ring

theorem collides_iff (attachments : List Attachment) (file : String) :
    collides attachments file = true ↔ ∃ a ∈ attachments, a.Name = pathBase file := by
  simp [collides]

theorem collides_congr (attachments : List Attachment) (f g : String)
    (h : pathBase f = pathBase g) : collides attachments f = collides attachments g := by
  simp [collides, h]

/-! ## `uploadFiles` -/

/-- C1. Under policy `fail`, when the attachment listing succeeds and some file's
base name equals an attachment's name, `uploadFiles` returns the error naming the
base name of the first colliding file, and the only remote call it issues is the
attachment listing: no delete call and no create-attachment call for any file,
the non-colliding files before the colliding one included. -/
theorem uploadFiles_fail_aborts_before_any_write (osOpen : String → Option String)
    (rc : releaseClient) (releaseID : Int) (files : List String) (s : St)
    (attachments : List Attachment)
    (hpol : rc.FileExists = "fail")
    (hlist : rc.Client.ListReleaseAttachments s.calls rc.Owner rc.Repo releaseID
      = .ok attachments)
    (hcol : ∃ f ∈ files, ∃ a ∈ attachments, a.Name = pathBase f) :
    ∃ pre f post, files = pre ++ f :: post
      ∧ (∀ g ∈ pre, ¬ ∃ a ∈ attachments, a.Name = pathBase g)
      ∧ (∃ a ∈ attachments, a.Name = pathBase f)
      ∧ (uploadFiles osOpen rc releaseID files s).1
          = .error ("Asset file " ++ pathBase f ++ " already exists")
      ∧ (uploadFiles osOpen rc releaseID files s).2.calls
          = s.calls ++ [.ListReleaseAttachments rc.Owner rc.Repo releaseID] := by
  obtain ⟨pre, f, post, hsplit, hpre, hf⟩ := first_collision attachments files hcol
  have hrun := partitionFiles_fail attachments pre f post []
    (s.call (.ListReleaseAttachments rc.Owner rc.Repo releaseID)) hpre hf
  refine ⟨pre, f, post, hsplit, ?_, (collides_iff _ _).mp hf, ?_, ?_⟩
  · intro g hg hex
    have := hpre g hg
    rw [(collides_iff _ _).mpr hex] at this
    exact Bool.noConfusion this
  · simp only [uploadFiles, hlist, hpol, hsplit, hrun]
  · simp only [uploadFiles, hlist, hpol, hsplit, hrun, St.calls_call]

/-- C2. Under policy `skip`, when the attachment listing succeeds, the partition
phase yields as upload set the input files, in order, without those whose base
name equals an attachment's name: every colliding file is excluded, every
non-colliding file stays, and no create-attachment call of the run carries a
colliding file, either as the file read or by its base name. -/
theorem uploadFiles_skip_excludes_colliding (osOpen : String → Option String)
    (rc : releaseClient) (releaseID : Int) (files : List String) (s : St)
    (attachments : List Attachment)
    (hpol : rc.FileExists = "skip")
    (hlist : rc.Client.ListReleaseAttachments s.calls rc.Owner rc.Repo releaseID
      = .ok attachments) :
    ∃ uploadSet new,
      (partitionFiles rc.FileExists attachments files []
          (s.call (.ListReleaseAttachments rc.Owner rc.Repo releaseID))).1 = .ok uploadSet
      ∧ (∀ F ∈ files, (∃ a ∈ attachments, a.Name = pathBase F) → F ∉ uploadSet)
      ∧ (∀ F ∈ files, (¬ ∃ a ∈ attachments, a.Name = pathBase F) → F ∈ uploadSet)
      ∧ (uploadFiles osOpen rc releaseID files s).2.calls
          = s.calls ++ .ListReleaseAttachments rc.Owner rc.Repo releaseID :: new
      ∧ ∀ F ∈ files, (∃ a ∈ attachments, a.Name = pathBase F) →
          ∀ owner repo id file name,
            Call.CreateReleaseAttachment owner repo id file name ∈ new →
              file ≠ F ∧ name ≠ pathBase F := by
  have hset := partitionFiles_skip attachments files []
    (s.call (.ListReleaseAttachments rc.Owner rc.Repo releaseID))
  have hcalls := partitionFiles_calls "skip" attachments files []
    (s.call (.ListReleaseAttachments rc.Owner rc.Repo releaseID))
  rcases hp : partitionFiles "skip" attachments files []
    (s.call (.ListReleaseAttachments rc.Owner rc.Repo releaseID)) with ⟨res, s2⟩
  rw [hp] at hset hcalls
  simp only [List.nil_append, St.calls_call] at hset hcalls
  subst hset
  obtain ⟨new, hnew, hall⟩ := uploadLoop_calls osOpen rc releaseID attachments
    (files.filter (fun f => !collides attachments f)) s2
  refine ⟨files.filter (fun f => !collides attachments f), new, ?_, ?_, ?_, ?_, ?_⟩
  · rw [hpol, hp]
  · intro F _ hex hmem
    have h1 := (collides_iff _ _).mpr hex
    have h2 := (List.mem_filter.mp hmem).2
    simp [h1] at h2
  · intro F hF hno
    refine List.mem_filter.mpr ⟨hF, ?_⟩
    cases hc : collides attachments F with
    | false => rfl
    | true => exact absurd ((collides_iff _ _).mp hc) hno
  · simp only [uploadFiles, hlist, hpol, hp, hnew, hcalls, List.append_assoc,
      List.singleton_append]
  · intro F _ hex owner repo id file name hmem
    have hF := (collides_iff _ _).mpr hex
    rcases hall _ hmem with ⟨a, _, hc⟩ | ⟨f, hf, hc⟩
    · exact Call.noConfusion hc
    · injection hc with _ _ _ hfile hname
      have hfc : collides attachments f = false := by
        simpa using (List.mem_filter.mp hf).2
      constructor
      · intro h
        rw [← hfile, h, hF] at hfc
        exact Bool.noConfusion hfc
      · intro h
        rw [collides_congr attachments f F (by rw [← hname, h]), hF] at hfc
        exact Bool.noConfusion hfc

/-- C10. When the attachment listing succeeds, the partition phase yields the
upload set, and every file open, every delete call and every create-attachment
call succeeds, `uploadFiles` succeeds and the calls after the listing are, for
each file of the upload set in order, one delete call per fetched attachment in
list order followed by one create-attachment call named by the file's base name.
The number of delete calls is the size of the upload set times the number of
fetched attachments, and there is none when the release had no attachments. -/
theorem uploadFiles_call_sequence (osOpen : String → Option String)
    (rc : releaseClient) (releaseID : Int) (files : List String) (s : St)
    (attachments : List Attachment) (uploadSet : List String)
    (hlist : rc.Client.ListReleaseAttachments s.calls rc.Owner rc.Repo releaseID
      = .ok attachments)
    (hpart : (partitionFiles rc.FileExists attachments files []
      (s.call (.ListReleaseAttachments rc.Owner rc.Repo releaseID))).1 = .ok uploadSet)
    (hopen : ∀ f ∈ uploadSet, osOpen f = none)
    (hdel : ∀ h, ∀ a ∈ attachments,
      rc.Client.DeleteReleaseAttachment h rc.Owner rc.Repo releaseID a.ID = .ok ())
    (hcreate : ∀ h, ∀ f ∈ uploadSet, ∃ att,
      rc.Client.CreateReleaseAttachment h rc.Owner rc.Repo releaseID f (pathBase f) = .ok att) :
    ∃ new,
      (uploadFiles osOpen rc releaseID files s).1 = .ok ()
      ∧ (uploadFiles osOpen rc releaseID files s).2.calls
          = s.calls ++ .ListReleaseAttachments rc.Owner rc.Repo releaseID :: new
      ∧ new = uploadSet.flatMap (fun file =>
          attachments.map
              (fun a => Call.DeleteReleaseAttachment rc.Owner rc.Repo releaseID a.ID)
            ++ [Call.CreateReleaseAttachment rc.Owner rc.Repo releaseID file (pathBase file)])
      ∧ (new.filter Call.isDelete).length = uploadSet.length * attachments.length
      ∧ (attachments = [] → new.filter Call.isDelete = []) := by
  have hcalls := partitionFiles_calls rc.FileExists attachments files []
    (s.call (.ListReleaseAttachments rc.Owner rc.Repo releaseID))
  rcases hp : partitionFiles rc.FileExists attachments files []
    (s.call (.ListReleaseAttachments rc.Owner rc.Repo releaseID)) with ⟨res, s2⟩
  rw [hp] at hpart hcalls
  simp only [St.calls_call] at hpart hcalls
  subst hpart
  obtain ⟨hok, hseq⟩ := uploadLoop_ok osOpen rc releaseID attachments uploadSet
    hopen hdel hcreate s2
  have hcount := flatMap_callsForFile_deletes rc releaseID attachments uploadSet
  refine ⟨uploadSet.flatMap (callsForFile rc releaseID attachments), ?_, ?_, rfl, hcount, ?_⟩
  · simp only [uploadFiles, hlist, hp, hok]
  · simp only [uploadFiles, hlist, hp, hseq, hcalls, List.append_assoc,
      List.singleton_append]
  · intro hnil
    rw [hnil] at hcount
    rw [hnil]
    exact List.length_eq_zero.mp (by simpa using hcount)

/-- Every call `uploadFiles` adds is an attachment call: the listing, a delete
or a create-attachment call. -/
theorem uploadFiles_calls (osOpen : String → Option String) (rc : releaseClient)
    (releaseID : Int) (files : List String) (s : St) :
    ∃ new, (uploadFiles osOpen rc releaseID files s).2.calls = s.calls ++ new
      ∧ ∀ c ∈ new, (∀ o r opt, c ≠ .CreateRelease o r opt)
          ∧ (∀ o r id opt, c ≠ .EditRelease o r id opt) := by
  simp only [uploadFiles]
  cases rc.Client.ListReleaseAttachments s.calls rc.Owner rc.Repo releaseID with
  | error err =>
    refine ⟨[.ListReleaseAttachments rc.Owner rc.Repo releaseID], by simp, ?_⟩
    intro c hc
    rw [List.mem_singleton] at hc
    subst hc
    exact ⟨fun _ _ _ h => Call.noConfusion h, fun _ _ _ _ h => Call.noConfusion h⟩
  | ok attachments =>
    simp only
    have hcalls := partitionFiles_calls rc.FileExists attachments files []
      (s.call (.ListReleaseAttachments rc.Owner rc.Repo releaseID))
    rcases hp : partitionFiles rc.FileExists attachments files []
      (s.call (.ListReleaseAttachments rc.Owner rc.Repo releaseID)) with ⟨res, s2⟩
    rw [hp] at hcalls
    simp only [St.calls_call] at hcalls
    cases res with
    | error err =>
      refine ⟨[.ListReleaseAttachments rc.Owner rc.Repo releaseID], by simp [hcalls], ?_⟩
      intro c hc
      rw [List.mem_singleton] at hc
      subst hc
      exact ⟨fun _ _ _ h => Call.noConfusion h, fun _ _ _ _ h => Call.noConfusion h⟩
    | ok uploadSet =>
      obtain ⟨new, hnew, hall⟩ := uploadLoop_calls osOpen rc releaseID attachments uploadSet s2
      refine ⟨.ListReleaseAttachments rc.Owner rc.Repo releaseID :: new,
        by simp [hnew, hcalls], ?_⟩
      intro c hc
      rcases List.mem_cons.mp hc with rfl | hc
      · exact ⟨fun _ _ _ h => Call.noConfusion h, fun _ _ _ _ h => Call.noConfusion h⟩
      · rcases hall c hc with ⟨a, _, rfl⟩ | ⟨f, _, rfl⟩ <;>
          exact ⟨fun _ _ _ h => Call.noConfusion h, fun _ _ _ _ h => Call.noConfusion h⟩

/-- Every create or edit call `buildRelease` adds carries the option value built
from `rc`. -/
theorem buildRelease_calls (rc : releaseClient) (s : St) :
    ∃ new, (buildRelease rc s).2.calls = s.calls ++ new
      ∧ ∀ c ∈ new, (∀ o r opt, c = .CreateRelease o r opt → opt = createOption rc)
          ∧ (∀ o r id opt, c = .EditRelease o r id opt → opt = editOption rc) := by
  have hsingle : ∀ c : Call, c = .ListReleases rc.Owner rc.Repo →
      (∀ o r opt, c = .CreateRelease o r opt → opt = createOption rc)
        ∧ (∀ o r id opt, c = .EditRelease o r id opt → opt = editOption rc) := by
    intro c hc
    subst hc
    exact ⟨fun _ _ _ h => Call.noConfusion h, fun _ _ _ _ h => Call.noConfusion h⟩
  have hcreate : ∀ c : Call, c = .CreateRelease rc.Owner rc.Repo (createOption rc) →
      (∀ o r opt, c = .CreateRelease o r opt → opt = createOption rc)
        ∧ (∀ o r id opt, c = .EditRelease o r id opt → opt = editOption rc) := by
    intro c hc
    subst hc
    refine ⟨fun _ _ _ h => ?_, fun _ _ _ _ h => Call.noConfusion h⟩
    injection h with _ _ h3
    exact h3.symm
  have hedit : ∀ (id : Int) (c : Call), c = .EditRelease rc.Owner rc.Repo id (editOption rc) →
      (∀ o r opt, c = .CreateRelease o r opt → opt = createOption rc)
        ∧ (∀ o r id opt, c = .EditRelease o r id opt → opt = editOption rc) := by
    intro id c hc
    subst hc
    refine ⟨fun _ _ _ h => Call.noConfusion h, fun _ _ _ _ h => ?_⟩
    injection h with _ _ _ h4
    exact h4.symm
  simp only [buildRelease, getRelease]
  cases rc.Client.ListReleases s.calls rc.Owner rc.Repo with
  | error err =>
    simp only [newRelease]
    refine ⟨[.ListReleases rc.Owner rc.Repo, .CreateRelease rc.Owner rc.Repo (createOption rc)],
      ?_, ?_⟩
    · cases rc.Client.CreateRelease
        (((s.call (.ListReleases rc.Owner rc.Repo)).print (err ++ "\n")).calls)
        rc.Owner rc.Repo (createOption rc) <;> simp
    · intro c hc
      simp only [List.mem_cons, List.mem_singleton, List.not_mem_nil, or_false] at hc
      rcases hc with hc | hc
      · exact hsingle c hc
      · exact hcreate c hc
  | ok releases =>
    simp only
    cases releases.find? (fun release => release.TagName == rc.Tag) with
    | none =>
      simp only [newRelease]
      refine ⟨[.ListReleases rc.Owner rc.Repo,
        .CreateRelease rc.Owner rc.Repo (createOption rc)], ?_, ?_⟩
      · cases rc.Client.CreateRelease
          (((s.call (.ListReleases rc.Owner rc.Repo)).print
            ("Release " ++ rc.Tag ++ " not found" ++ "\n")).calls)
          rc.Owner rc.Repo (createOption rc) <;> simp
      · intro c hc
        simp only [List.mem_cons, List.mem_singleton, List.not_mem_nil, or_false] at hc
        rcases hc with hc | hc
        · exact hsingle c hc
        · exact hcreate c hc
    | some r =>
      simp only
      cases rc.AllowEdit with
      | false =>
        refine ⟨[.ListReleases rc.Owner rc.Repo], by simp, ?_⟩
        intro c hc
        exact hsingle c (List.mem_singleton.mp hc)
      | true =>
        simp only [editRelease, if_true]
        refine ⟨[.ListReleases rc.Owner rc.Repo,
          .EditRelease rc.Owner rc.Repo r.ID (editOption rc)], ?_, ?_⟩
        · cases rc.Client.EditRelease
            (((s.call (.ListReleases rc.Owner rc.Repo)).print
              ("Successfully retrieved " ++ rc.Tag ++ " release\n")).calls)
            rc.Owner rc.Repo r.ID (editOption rc) <;> simp
        · intro c hc
          simp only [List.mem_cons, List.mem_singleton, List.not_mem_nil, or_false] at hc
          rcases hc with hc | hc
          · exact hsingle c hc
          · exact hedit r.ID c hc

/-! ## `readStringOrFile` and `Exec` -/

theorem length_eq_zero_iff_empty (t : String) : t.length = 0 ↔ t = "" := by
  rw [String.ext_iff]
  exact List.length_eq_zero

theorem fileExistsValues_iff (v : String) :
    fileExistsValues v = true ↔ v = "overwrite" ∨ v = "fail" ∨ v = "skip" := by
  simp [fileExistsValues, or_assoc]

/-- Either `Exec` issues no remote call, or tag, note and title resolved and every
create or edit call of the run carries the option value built from the
`releaseClient` of lines 138-155. -/
theorem Exec_calls (env : Env) (p : Plugin) :
    (Exec env p).2.calls = [] ∨
    ∃ tag note title client, resolveTag env p = .ok tag ∧ resolveNote env p = .ok note
      ∧ resolveTitle env p note = .ok title
      ∧ ∀ c ∈ (Exec env p).2.calls,
          (∀ o r opt, c = .CreateRelease o r opt →
            opt = createOption (mkReleaseClient client p tag title note))
          ∧ (∀ o r id opt, c = .EditRelease o r id opt →
            opt = editOption (mkReleaseClient client p tag title note)) := by
  unfold Exec
  by_cases h0 : p.Build.Event ≠ "tag" ∧ p.Config.Tag.length = 0
  · left; rw [if_pos h0]; rfl
  rw [if_neg h0]
  cases htag : resolveTag env p with
  | error e => left; rfl
  | ok tag =>
  simp only
  by_cases h1 : p.Config.APIKey = ""
  · left; rw [if_pos h1]; rfl
  rw [if_neg h1]
  by_cases h2 : ¬ fileExistsValues p.Config.FileExists
  · left; rw [if_pos h2]; rfl
  rw [if_neg h2]
  by_cases h3 : p.Config.BaseURL = ""
  · left; rw [if_pos h3]; rfl
  rw [if_neg h3]
  cases hnote : resolveNote env p with
  | error e => left; rfl
  | ok note =>
  simp only
  cases htitle : resolveTitle env p note with
  | error e => left; rfl
  | ok title =>
  simp only
  cases globFiles env p.Config.Files [] with
  | error e => left; rfl
  | ok globbed =>
  simp only
  cases checksumFiles env p globbed with
  | error e => left; rfl
  | ok files =>
  simp only
  cases env.NewClient (if hasSuffix p.Config.BaseURL "/" = true then p.Config.BaseURL
      else p.Config.BaseURL ++ "/") p.Config.APIKey p.Config.Insecure with
  | error e => left; rfl
  | ok client =>
  simp only
  right
  refine ⟨tag, note, title, client, rfl, rfl, htitle, ?_⟩
  obtain ⟨new, hnew, hall⟩ := buildRelease_calls (mkReleaseClient client p tag title note) St.init
  rcases hb : buildRelease (mkReleaseClient client p tag title note) St.init with ⟨res, s1⟩
  rw [hb] at hnew
  have hs1 : s1.calls = new := by simpa [St.init] using hnew
  cases res with
  | error e =>
    intro c hc
    exact hall c (by simpa [hs1] using hc)
  | ok release =>
    simp only
    obtain ⟨new2, hnew2, hall2⟩ := uploadFiles_calls env.Open
      (mkReleaseClient client p tag title note) release.ID files s1
    rcases hu : uploadFiles env.Open (mkReleaseClient client p tag title note) release.ID
      files s1 with ⟨res2, s2⟩
    rw [hu] at hnew2
    have hs2 : s2.calls = new ++ new2 := by simpa [hs1] using hnew2
    have key : ∀ c ∈ s2.calls,
        (∀ o r opt, c = .CreateRelease o r opt →
            opt = createOption (mkReleaseClient client p tag title note))
          ∧ (∀ o r id opt, c = .EditRelease o r id opt →
            opt = editOption (mkReleaseClient client p tag title note)) := by
      intro c hc
      rw [hs2] at hc
      rcases List.mem_append.mp hc with hc | hc
      · exact hall c hc
      · exact ⟨fun o r opt h => absurd h ((hall2 c hc).1 o r opt),
          fun o r id opt h => absurd h ((hall2 c hc).2 o r id opt)⟩
    cases res2 with
    | error e => exact key
    | ok u => exact key

/-- C8. Every create-release or edit-release call `Exec` issues carries as title
the resolved tag when the title is empty after resolution, and the resolved
title when it is not. -/
theorem exec_title_defaults_to_tag (env : Env) (p : Plugin) (c : Call)
    (hc : c ∈ (Exec env p).2.calls) :
    ∃ tag note title, resolveTag env p = .ok tag ∧ resolveNote env p = .ok note
      ∧ resolveTitle env p note = .ok title
      ∧ (∀ owner repo opt, c = .CreateRelease owner repo opt →
          (title = "" → opt.Title = tag) ∧ (title ≠ "" → opt.Title = title))
      ∧ (∀ owner repo id opt, c = .EditRelease owner repo id opt →
          (title = "" → opt.Title = tag) ∧ (title ≠ "" → opt.Title = title)) := by
  rcases Exec_calls env p with hnil | ⟨tag, note, title, client, htag, hnote, htitle, hall⟩
  · rw [hnil] at hc
    exact absurd hc (List.not_mem_nil c)
  · refine ⟨tag, note, title, htag, hnote, htitle, ?_, ?_⟩
    · intro owner repo opt h
      rw [(hall c hc).1 owner repo opt h]
      constructor
      · intro ht; simp [createOption, mkReleaseClient, ht]
      · intro ht; simp [createOption, mkReleaseClient, ht]
    · intro owner repo id opt h
      rw [(hall c hc).2 owner repo id opt h]
      constructor
      · intro ht; simp [editOption, mkReleaseClient, ht]
      · intro ht; simp [editOption, mkReleaseClient, ht]

/-- C9. Validation is fail-fast in the order of rules 1-4: when one of them is
violated, `Exec` returns the error of the first violated rule and issues no remote
call.  In particular, when the event is not `tag` and no tag override is given,
`Exec` fails with the "only available for tags" error whatever the other fields
are. -/
theorem exec_validation_fail_fast (env : Env) (p : Plugin) :
    (∀ e, firstViolation env p = some e →
        (Exec env p).1 = .error e ∧ (Exec env p).2.calls = [])
    ∧ (p.Build.Event ≠ "tag" → p.Config.Tag = "" →
        (Exec env p).1 = .error "The Gitea Release plugin is only available for tags"
          ∧ (Exec env p).2.calls = []) := by
  constructor
  · intro e h
    unfold firstViolation at h
    unfold Exec
    by_cases h0 : p.Build.Event ≠ "tag" ∧ p.Config.Tag = ""
    · rw [if_pos h0] at h
      rw [if_pos ⟨h0.1, (length_eq_zero_iff_empty _).mpr h0.2⟩]
      injection h with h
      subst h
      exact ⟨rfl, rfl⟩
    rw [if_neg h0] at h
    rw [if_neg (fun hh => h0 ⟨hh.1, (length_eq_zero_iff_empty _).mp hh.2⟩)]
    have hsplit : resolveTag env p = .error e
        ∨ ∃ tag, resolveTag env p = .ok tag
            ∧ (if p.Config.APIKey = "" then some "You must provide an API key"
              else if p.Config.FileExists ≠ "overwrite" ∧ p.Config.FileExists ≠ "fail"
                  ∧ p.Config.FileExists ≠ "skip" then
                some "Invalid value for file_exists"
              else if p.Config.BaseURL = "" then some "You must provide a base url."
              else none) = some e := by
      by_cases ht : p.Config.Tag = ""
      · rw [if_pos ht] at h
        exact Or.inr ⟨trimPrefix p.Commit.Ref "refs/tags/", by simp [resolveTag, ht], h⟩
      · rw [if_neg ht] at h
        cases hr : readStringOrFile env p.Config.Tag with
        | error err =>
          rw [hr] at h
          injection h with h
          subst h
          left
          simp only [resolveTag, hr, ne_eq, ht, not_false_eq_true, if_true]
          rfl
        | ok tag =>
          rw [hr] at h
          exact Or.inr ⟨tag, by simp [resolveTag, ht, hr], h⟩
    rcases hsplit with herr | ⟨tag, htag, hv⟩
    · rw [herr]
      exact ⟨rfl, rfl⟩
    rw [htag]
    simp only
    by_cases h1 : p.Config.APIKey = ""
    · rw [if_pos h1] at hv
      rw [if_pos h1]
      injection hv with hv
      subst hv
      exact ⟨rfl, rfl⟩
    rw [if_neg h1] at hv
    rw [if_neg h1]
    by_cases h2 : p.Config.FileExists ≠ "overwrite" ∧ p.Config.FileExists ≠ "fail"
        ∧ p.Config.FileExists ≠ "skip"
    · have h2b : ¬ fileExistsValues p.Config.FileExists = true := by
        rw [fileExistsValues_iff]
        rintro (h | h | h)
        · exact h2.1 h
        · exact h2.2.1 h
        · exact h2.2.2 h
      rw [if_pos h2] at hv
      rw [if_pos h2b]
      injection hv with hv
      subst hv
      exact ⟨rfl, rfl⟩
    have h2b : ¬ ¬ fileExistsValues p.Config.FileExists = true := by
      rw [fileExistsValues_iff]
      intro hno
      exact h2 ⟨fun h => hno (Or.inl h), fun h => hno (Or.inr (Or.inl h)),
        fun h => hno (Or.inr (Or.inr h))⟩
    rw [if_neg h2] at hv
    rw [if_neg h2b]
    by_cases h3 : p.Config.BaseURL = ""
    · rw [if_pos h3] at hv
      rw [if_pos h3]
      injection hv with hv
      subst hv
      exact ⟨rfl, rfl⟩
    rw [if_neg h3] at hv
    exact Option.noConfusion hv
  · intro h1 h2
    unfold Exec
    rw [if_pos ⟨h1, (length_eq_zero_iff_empty _).mpr h2⟩]
    exact ⟨rfl, rfl⟩

/-- C7, as the claim states it, fails in both halves.  First half: `tag.txt`
exists and holds `v2.0.0` followed by a line feed; `readStringOrFile` returns the
contents with the line feed, not the trimmed text, and `Exec` sends the untrimmed
tag in the create call.  Second half: `tag.txt/x` names no existing file, but
`os.Stat` fails on it with an error that is not `os.IsNotExist`;
`readStringOrFile` returns that error, not the value, and the tag override does
not resolve. -/
theorem readStringOrFile_does_not_trim :
    ((demoEnv (demoClient [] [])).Stat "tag.txt" = none
      ∧ (demoEnv (demoClient [] [])).ReadFile "tag.txt" = .ok "v2.0.0\n"
      ∧ trimSpace "v2.0.0\n" = "v2.0.0"
      ∧ readStringOrFile (demoEnv (demoClient [] [])) "tag.txt" = .ok "v2.0.0\n"
      ∧ readStringOrFile (demoEnv (demoClient [] [])) "tag.txt" ≠ .ok (trimSpace "v2.0.0\n")
      ∧ resolveTag (demoEnv (demoClient [] [])) (demoPlugin "tag" "tag.txt" "" [])
          ≠ .ok "v2.0.0"
      ∧ (Exec (demoEnv (demoClient [] [])) (demoPlugin "tag" "tag.txt" "" [])).2.calls
          = [.ListReleases "octo" "app",
             .CreateRelease "octo" "app" ⟨"v2.0.0\n", false, false, "v2.0.0\n", ""⟩,
             .ListReleaseAttachments "octo" "app" 100,
             .CreateReleaseAttachment "octo" "app" 100 "out.bin" "out.bin"])
    ∧ ((demoEnv (demoClient [] [])).Stat "tag.txt/x"
          = some ⟨"stat tag.txt/x: not a directory", false⟩
      ∧ readStringOrFile (demoEnv (demoClient [] [])) "tag.txt/x"
          = .error "stat tag.txt/x: not a directory"
      ∧ readStringOrFile (demoEnv (demoClient [] [])) "tag.txt/x" ≠ .ok "tag.txt/x"
      ∧ resolveTag (demoEnv (demoClient [] [])) (demoPlugin "tag" "tag.txt/x" "" [])
          = .error "error while reading : stat tag.txt/x: not a directory"
      ∧ (Exec (demoEnv (demoClient [] [])) (demoPlugin "tag" "tag.txt/x" "" []))
          = (.error "error while reading : stat tag.txt/x: not a directory", St.init)) := by
  decide

/-- C7, amended. For every value that names an existing readable file (`os.Stat`
succeeds and `ioutil.ReadFile` returns the contents), `readStringOrFile` returns
that file's contents verbatim, without trimming; for every value on which
`os.Stat` fails with an error that `os.IsNotExist` accepts, it returns the value
verbatim.  The tag override of `Exec` resolves accordingly. -/
theorem readStringOrFile_verbatim (env : Env) (p : Plugin) (input : String) :
    (∀ contents, env.Stat input = none → env.ReadFile input = .ok contents →
        readStringOrFile env input = .ok contents
          ∧ (p.Config.Tag = input → input ≠ "" → resolveTag env p = .ok contents))
    ∧ (∀ err, env.Stat input = some err → err.isNotExist = true →
        readStringOrFile env input = .ok input
          ∧ (p.Config.Tag = input → input ≠ "" → resolveTag env p = .ok input)) := by
  constructor
  · intro contents hstat hread
    have h : readStringOrFile env input = .ok contents := by
      simp [readStringOrFile, hstat, hread]
    refine ⟨h, fun htag hne => ?_⟩
    simp [resolveTag, htag, hne, h]
  · intro err hstat hnot
    have h : readStringOrFile env input = .ok input := by
      simp [readStringOrFile, hstat, hnot]
    refine ⟨h, fun htag hne => ?_⟩
    simp [resolveTag, htag, hne, h]

theorem readStringOrFile_verbatim_witness :
    (readStringOrFile (demoEnv (demoClient [] [])) "tag.txt" = .ok "v2.0.0\n"
      ∧ resolveTag (demoEnv (demoClient [] [])) (demoPlugin "tag" "tag.txt" "" [])
          = .ok "v2.0.0\n")
    ∧ (readStringOrFile (demoEnv (demoClient [] [])) "v3.0.0" = .ok "v3.0.0"
      ∧ resolveTag (demoEnv (demoClient [] [])) (demoPlugin "tag" "v3.0.0" "" [])
          = .ok "v3.0.0") :=
  ⟨⟨((readStringOrFile_verbatim (demoEnv (demoClient [] []))
        (demoPlugin "tag" "tag.txt" "" []) "tag.txt").1 "v2.0.0\n" rfl rfl).1,
    ((readStringOrFile_verbatim (demoEnv (demoClient [] []))
        (demoPlugin "tag" "tag.txt" "" []) "tag.txt").1 "v2.0.0\n" rfl rfl).2 rfl
          (by decide)⟩,
   ⟨((readStringOrFile_verbatim (demoEnv (demoClient [] []))
        (demoPlugin "tag" "v3.0.0" "" []) "v3.0.0").2
          ⟨"stat v3.0.0: no such file or directory", true⟩ (by decide) rfl).1,
    ((readStringOrFile_verbatim (demoEnv (demoClient [] []))
        (demoPlugin "tag" "v3.0.0" "" []) "v3.0.0").2
          ⟨"stat v3.0.0: no such file or directory", true⟩ (by decide) rfl).2 rfl
          (by decide)⟩⟩

/-- C3, the code at a failing input. Under `skip`, `a.bin` collides with
attachment 1 and is skipped, yet uploading `b.bin` deletes attachment 1: the run
succeeds with a delete call for the attachment the skipped file collides with. -/
theorem uploadFiles_skip_deletes_attachment_of_skipped_file :
    collides [⟨1, "a.bin"⟩] "a.bin" = true
    ∧ (partitionFiles "skip" [⟨1, "a.bin"⟩] ["a.bin", "b.bin"] [] St.init).1 = .ok ["b.bin"]
    ∧ (uploadFiles (fun _ => none) (demoRC (demoClient [] [⟨1, "a.bin"⟩]) "skip" false) 7
        ["a.bin", "b.bin"] St.init).1 = .ok ()
    ∧ (uploadFiles (fun _ => none) (demoRC (demoClient [] [⟨1, "a.bin"⟩]) "skip" false) 7
        ["a.bin", "b.bin"] St.init).2.calls
        = [.ListReleaseAttachments "octo" "app" 7,
           .DeleteReleaseAttachment "octo" "app" 7 1,
           .CreateReleaseAttachment "octo" "app" 7 "b.bin" "b.bin"] := by
  decide

/-! ## The theorems at concrete inputs -/

theorem uploadFiles_fail_aborts_before_any_write_witness :
    ∃ pre f post, demoFiles = pre ++ f :: post
      ∧ (∀ g ∈ pre, ¬ ∃ a ∈ demoAttachments, a.Name = pathBase g)
      ∧ (∃ a ∈ demoAttachments, a.Name = pathBase f)
      ∧ (uploadFiles (fun _ => none) (demoRC (demoClient [] demoAttachments) "fail" false) 7
          demoFiles St.init).1 = .error ("Asset file " ++ pathBase f ++ " already exists")
      ∧ (uploadFiles (fun _ => none) (demoRC (demoClient [] demoAttachments) "fail" false) 7
          demoFiles St.init).2.calls = [] ++ [.ListReleaseAttachments "octo" "app" 7] :=
  uploadFiles_fail_aborts_before_any_write (fun _ => none)
    (demoRC (demoClient [] demoAttachments) "fail" false) 7 demoFiles St.init demoAttachments
    rfl rfl ⟨"dist/b.bin", by decide, ⟨1, "b.bin"⟩, by decide, by decide⟩

theorem uploadFiles_skip_excludes_colliding_witness :
    ∃ uploadSet new,
      (partitionFiles "skip" demoAttachments demoFiles []
          (St.init.call (.ListReleaseAttachments "octo" "app" 7))).1 = .ok uploadSet
      ∧ (∀ F ∈ demoFiles, (∃ a ∈ demoAttachments, a.Name = pathBase F) → F ∉ uploadSet)
      ∧ (∀ F ∈ demoFiles, (¬ ∃ a ∈ demoAttachments, a.Name = pathBase F) → F ∈ uploadSet)
      ∧ (uploadFiles (fun _ => none) (demoRC (demoClient [] demoAttachments) "skip" false) 7
          demoFiles St.init).2.calls
          = [] ++ .ListReleaseAttachments "octo" "app" 7 :: new
      ∧ ∀ F ∈ demoFiles, (∃ a ∈ demoAttachments, a.Name = pathBase F) →
          ∀ owner repo id file name,
            Call.CreateReleaseAttachment owner repo id file name ∈ new →
              file ≠ F ∧ name ≠ pathBase F :=
  uploadFiles_skip_excludes_colliding (fun _ => none)
    (demoRC (demoClient [] demoAttachments) "skip" false) 7 demoFiles St.init demoAttachments
    rfl rfl

theorem buildRelease_found_returns_first_unchanged_witness :
    ∃ pre r post, demoReleases = pre ++ r :: post ∧ (∀ x ∈ pre, x.TagName ≠ "v1.0.0")
      ∧ r.TagName = "v1.0.0"
      ∧ (buildRelease (demoRC (demoClient demoReleases []) "overwrite" false) St.init).1 = .ok r
      ∧ (buildRelease (demoRC (demoClient demoReleases []) "overwrite" false) St.init).2.calls
          = [] ++ [.ListReleases "octo" "app"] :=
  buildRelease_found_returns_first_unchanged
    (demoRC (demoClient demoReleases []) "overwrite" false) St.init demoReleases rfl rfl
    ⟨⟨3, "v1.0.0", "B", "", true, false⟩, by decide, rfl⟩

theorem buildRelease_found_edits_once_witness :
    ∃ pre r post, demoReleases = pre ++ r :: post ∧ (∀ x ∈ pre, x.TagName ≠ "v1.0.0")
      ∧ r.TagName = "v1.0.0"
      ∧ (buildRelease (demoRC (demoClient demoReleases []) "overwrite" true) St.init).2.calls
          = [] ++ [.ListReleases "octo" "app",
              .EditRelease "octo" "app" r.ID ⟨"v1.0.0", false, true, "First", "notes"⟩]
      ∧ (∀ err, (demoClient demoReleases []).EditRelease ([] ++ [.ListReleases "octo" "app"])
            "octo" "app" r.ID ⟨"v1.0.0", false, true, "First", "notes"⟩ = .error err →
          (buildRelease (demoRC (demoClient demoReleases []) "overwrite" true) St.init).1
            = .error ("Failed to edit release: " ++ err))
      ∧ (∀ edited, (demoClient demoReleases []).EditRelease ([] ++ [.ListReleases "octo" "app"])
            "octo" "app" r.ID ⟨"v1.0.0", false, true, "First", "notes"⟩ = .ok edited →
          (buildRelease (demoRC (demoClient demoReleases []) "overwrite" true) St.init).1
            = .ok edited) :=
  buildRelease_found_edits_once
    (demoRC (demoClient demoReleases []) "overwrite" true) St.init demoReleases rfl rfl
    ⟨⟨3, "v1.0.0", "B", "", true, false⟩, by decide, rfl⟩

theorem buildRelease_not_found_creates_once_witness :
    (buildRelease (demoRC listFailsClient "overwrite" true) St.init).2.calls
        = [.ListReleases "octo" "app",
           .CreateRelease "octo" "app" ⟨"v1.0.0", false, true, "First", "notes"⟩]
    ∧ (buildRelease (demoRC listFailsClient "overwrite" true) St.init).1
        = .ok ⟨100, "v1.0.0", "First", "notes", false, true⟩ :=
  ⟨(buildRelease_not_found_creates_once (demoRC listFailsClient "overwrite" true) St.init
      (Or.inl ⟨"401 Unauthorized", rfl⟩)).1,
   (buildRelease_not_found_creates_once (demoRC listFailsClient "overwrite" true) St.init
      (Or.inl ⟨"401 Unauthorized", rfl⟩)).2.1 ⟨100, "v1.0.0", "First", "notes", false, true⟩ rfl⟩

theorem exec_title_defaults_to_tag_witness :
    ∃ tag note title,
      resolveTag (demoEnv (demoClient [] [])) (demoPlugin "tag" "" "" ["sha256"]) = .ok tag
      ∧ resolveNote (demoEnv (demoClient [] [])) (demoPlugin "tag" "" "" ["sha256"]) = .ok note
      ∧ resolveTitle (demoEnv (demoClient [] [])) (demoPlugin "tag" "" "" ["sha256"]) note
          = .ok title
      ∧ (∀ owner repo opt,
          Call.CreateRelease "octo" "app" ⟨"v1.0.0", false, false, "v1.0.0", ""⟩
            = .CreateRelease owner repo opt →
          (title = "" → opt.Title = tag) ∧ (title ≠ "" → opt.Title = title))
      ∧ (∀ owner repo id opt,
          Call.CreateRelease "octo" "app" ⟨"v1.0.0", false, false, "v1.0.0", ""⟩
            = .EditRelease owner repo id opt →
          (title = "" → opt.Title = tag) ∧ (title ≠ "" → opt.Title = title)) :=
  exec_title_defaults_to_tag (demoEnv (demoClient [] [])) (demoPlugin "tag" "" "" ["sha256"])
    (.CreateRelease "octo" "app" ⟨"v1.0.0", false, false, "v1.0.0", ""⟩) (by decide)

theorem exec_validation_fail_fast_witness :
    ((Exec (demoEnv (demoClient [] [])) noKeyPlugin).1 = .error "You must provide an API key"
      ∧ (Exec (demoEnv (demoClient [] [])) noKeyPlugin).2.calls = [])
    ∧ ((Exec (demoEnv (demoClient [] [])) (demoPlugin "push" "" "" [])).1
          = .error "The Gitea Release plugin is only available for tags"
      ∧ (Exec (demoEnv (demoClient [] [])) (demoPlugin "push" "" "" [])).2.calls = []) :=
  ⟨(exec_validation_fail_fast (demoEnv (demoClient [] [])) noKeyPlugin).1
      "You must provide an API key" (by decide),
   (exec_validation_fail_fast (demoEnv (demoClient [] [])) (demoPlugin "push" "" "" [])).2
      (by decide) rfl⟩

theorem uploadFiles_call_sequence_witness :
    ∃ new,
      (uploadFiles (fun _ => none) (demoRC (demoClient [] demoAttachments) "overwrite" false) 7
          demoFiles St.init).1 = .ok ()
      ∧ (uploadFiles (fun _ => none) (demoRC (demoClient [] demoAttachments) "overwrite" false)
          7 demoFiles St.init).2.calls
          = [] ++ .ListReleaseAttachments "octo" "app" 7 :: new
      ∧ new = demoFiles.flatMap (fun file =>
          demoAttachments.map (fun a => Call.DeleteReleaseAttachment "octo" "app" 7 a.ID)
            ++ [Call.CreateReleaseAttachment "octo" "app" 7 file (pathBase file)])
      ∧ (new.filter Call.isDelete).length = demoFiles.length * demoAttachments.length
      ∧ (demoAttachments = [] → new.filter Call.isDelete = []) :=
  uploadFiles_call_sequence (fun _ => none)
    (demoRC (demoClient [] demoAttachments) "overwrite" false) 7 demoFiles St.init
    demoAttachments demoFiles rfl (by decide) (fun _ _ => rfl) (fun _ _ _ => rfl)
    (fun _ f _ => ⟨⟨200, pathBase f⟩, rfl⟩)

end GiteaRelease
